import Mathlib

/-!
Verification of the in-memory user-credential store of
`src/auth-service/users.rs` (trait `Users`, implementation `UsersImpl`).

The Rust code keeps two `HashMap<String, User>` indexes (`uuid_to_user` and
`username_to_user`).  We model each `HashMap` as an association list with
unique keys: `get` is first-match lookup, `insert` replaces the entry for an
existing key (appending when the key is fresh), and `remove` drops the entry
for the key.  On lists whose keys are pairwise distinct — which is every list
a `HashMap` can denote — these are exactly the `HashMap` operations.

The external crates are modelled as parameters:
* `pbkdf2` / `password_hash` (`Pbkdf2.hash_password`, `PasswordHash::new`,
  `Pbkdf2.verify_password`) become a `HashScheme` record;
* `OsRng`-driven salt generation (`SaltString::generate(&mut OsRng)`) and
  `Uuid::new_v4()` become an `Entropy` state holding two streams with
  draw counters, so that "a creation draws a fresh salt and then, only on
  hashing success, a fresh identifier" is explicit.

Rust panics (the two `.unwrap()` calls in `delete_user`) are modelled by
`Option`: `none` is a panic of the host process.
-/

namespace AuthService

/-- The `User` struct of `users.rs`: the `password` field stores the
PHC-string output of `Pbkdf2.hash_password(...)` (see `create_user`). -/
structure User where
  user_uuid : String
  username : String
  password : String
deriving DecidableEq, Repr

/-- First-match lookup: `HashMap::get` on an association list. -/
def mfind : List (String × User) → String → Option User
  | [], _ => none
  | (k2, v) :: rest, k => if k2 = k then some v else mfind rest k

/-- `HashMap::insert`: replace the entry for the key if present,
append otherwise. -/
def minsert : List (String × User) → String → User → List (String × User)
  | [], k, v => [(k, v)]
  | (k2, v2) :: rest, k, v =>
      if k2 = k then (k, v) :: rest else (k2, v2) :: minsert rest k v

/-- `HashMap::remove`: drop the entry for the key.  On unique-key lists
(filtering all matches) this is exactly the `HashMap` removal. -/
def mremove (m : List (String × User)) (k : String) : List (String × User) :=
  m.filter (fun p => p.1 ≠ k)

/-- Keys of the map, for the unique-key representation invariant. -/
def mkeys (m : List (String × User)) : List String :=
  m.map (fun p => p.1)

/-- The `UsersImpl` struct: primary index `uuid_to_user` and secondary
index `username_to_user`. -/
structure UsersImpl where
  uuid_to_user : List (String × User)
  username_to_user : List (String × User)
deriving DecidableEq, Repr

/-- `UsersImpl::default()`: both maps empty. -/
def UsersImpl.default : UsersImpl := ⟨[], []⟩

/-- Abstraction of the `pbkdf2`/`password_hash` crates used by `users.rs`:
`hash_password` is `Pbkdf2.hash_password(password.as_bytes(), &salt)`
followed by `.to_string()` (it can fail, carrying an error message);
`parse_hash` is `PasswordHash::new(&hashed_password)` (PHC-string parsing,
`Option` for its `Result`); `verify_password` is
`Pbkdf2.verify_password(password.as_bytes(), &parsed_hash)` reported as a
`Bool` (`true` for `Ok(())`). -/
structure HashScheme (PHash : Type) where
  hash_password : String → String → Except String String
  parse_hash : String → Option PHash
  verify_password : String → PHash → Bool

/-- The process-wide entropy source (`OsRng` for `SaltString::generate`,
and the randomness behind `Uuid::new_v4()`): two streams of draws with
counters recording how many salts and identifiers have been consumed. -/
structure Entropy where
  salt_at : Nat → String
  uuid_at : Nat → String
  salt_ctr : Nat
  uuid_ctr : Nat

/-- Draw the next salt: `SaltString::generate(&mut OsRng)`. -/
def Entropy.draw_salt (e : Entropy) : String × Entropy :=
  (e.salt_at e.salt_ctr, { e with salt_ctr := e.salt_ctr + 1 })

/-- Draw the next identifier: `Uuid::new_v4().to_string()`. -/
def Entropy.draw_uuid (e : Entropy) : String × Entropy :=
  (e.uuid_at e.uuid_ctr, { e with uuid_ctr := e.uuid_ctr + 1 })

/-- `UsersImpl::create_user`.  The Rust method takes `&mut self` and returns
`Result<(), String>`; we return the `Result` together with the post-state of
the store and of the entropy source.  Mirrors the source: look up the
username in `username_to_user`; if present, return the duplicate error with
nothing mutated and nothing drawn; otherwise draw a salt, hash (the `?`
propagates a hashing error before any identifier is drawn or any map is
touched), draw a fresh uuid, build the record and insert it into
`username_to_user` and then `uuid_to_user`. -/
def create_user {PHash : Type} (H : HashScheme PHash) (st : UsersImpl)
    (e : Entropy) (username password : String) :
    Except String Unit × UsersImpl × Entropy :=
  match mfind st.username_to_user username with
  | some _ => (Except.error "Username {name} already exists", st, e)
  | none =>
      let se := e.draw_salt
      match H.hash_password password se.1 with
      | Except.error msg =>
          (Except.error ("Failed to hash password.\n" ++ msg), st, se.2)
      | Except.ok hashed_password =>
          let ue := se.2.draw_uuid
          let user : User :=
            { user_uuid := ue.1, username := username,
              password := hashed_password }
          (Except.ok (),
           { username_to_user := minsert st.username_to_user username user,
             uuid_to_user := minsert st.uuid_to_user user.user_uuid user },
           ue.2)

/-- `UsersImpl::get_user_uuid` (`&self`, so no state is returned): look the
username up in `username_to_user`; return `none` if absent; parse the stored
hash (`.ok()?` turns a parse failure into `none`); verify the supplied
password against the parsed hash; return the record's uuid on `Ok`, `none`
on `Err`. -/
def get_user_uuid {PHash : Type} (H : HashScheme PHash) (st : UsersImpl)
    (username password : String) : Option String :=
  match mfind st.username_to_user username with
  | none => none
  | some user =>
      match H.parse_hash user.password with
      | none => none
      | some parsed_hash =>
          if H.verify_password password parsed_hash then
            some user.user_uuid
          else
            none

/-- `UsersImpl::delete_user`: `self.uuid_to_user.remove(&user_uuid).unwrap()`
panics (modelled `none`) when the uuid is absent; otherwise the record is
removed from the primary index and
`self.username_to_user.remove(&username).unwrap()` removes it from the
secondary index, panicking if that entry is missing. -/
def delete_user (st : UsersImpl) (user_uuid : String) : Option UsersImpl :=
  match mfind st.uuid_to_user user_uuid with
  | none => none
  | some u =>
      let st1 : UsersImpl :=
        { st with uuid_to_user := mremove st.uuid_to_user user_uuid }
      match mfind st1.username_to_user u.username with
      | none => none
      | some _ =>
          some { st1 with
                 username_to_user := mremove st1.username_to_user u.username }

/-- One call through the `Users` trait. -/
inductive Op where
  | create (username password : String)
  | verify (username password : String)
  | delete (user_uuid : String)

/-- Observable outcome of a completed trait call. -/
inductive Out where
  | created
  | createFailed (msg : String)
  | verified (r : Option String)
  | deleted
deriving DecidableEq, Repr

/-- Run one trait call; `none` is a panic (only `delete` can panic). -/
def stepE {PHash : Type} (H : HashScheme PHash) (st : UsersImpl)
    (e : Entropy) : Op → Option ((UsersImpl × Entropy) × Out)
  | Op.create u p =>
      match create_user H st e u p with
      | (Except.ok _, st2, e2) => some ((st2, e2), Out.created)
      | (Except.error m, st2, e2) => some ((st2, e2), Out.createFailed m)
  | Op.verify u p => some ((st, e), Out.verified (get_user_uuid H st u p))
  | Op.delete id =>
      match delete_user st id with
      | none => none
      | some st2 => some ((st2, e), Out.deleted)

/-- The dual-index storage invariant of §3 of the design: both maps have
unique keys (the `HashMap` representation), every primary entry is keyed by
its record's uuid and is reachable under its username from the secondary
index, and conversely for every secondary entry — so the two indexes hold
the same set of records and each username names at most one live record. -/
def Inv (st : UsersImpl) : Prop :=
  (mkeys st.uuid_to_user).Nodup ∧
  (mkeys st.username_to_user).Nodup ∧
  (∀ p ∈ st.uuid_to_user,
      p.1 = p.2.user_uuid ∧ mfind st.username_to_user p.2.username = some p.2) ∧
  (∀ p ∈ st.username_to_user,
      p.1 = p.2.username ∧ mfind st.uuid_to_user p.2.user_uuid = some p.2)

instance (st : UsersImpl) : Decidable (Inv st) := by
  unfold Inv
  infer_instance

/-! ### Map lemmas shared by the claim proofs -/

theorem mkeys_cons (p : String × User) (tl : List (String × User)) :
    mkeys (p :: tl) = p.1 :: mkeys tl := rfl

theorem mkeys_append (m1 m2 : List (String × User)) :
    mkeys (m1 ++ m2) = mkeys m1 ++ mkeys m2 :=
  List.map_append _ _ _

theorem mem_mkeys (m : List (String × User)) (k : String) :
    k ∈ mkeys m ↔ ∃ v, (k, v) ∈ m := by
  constructor
  · intro h
    rcases List.mem_map.mp h with ⟨⟨a, b⟩, hp, he⟩
    simp only at he
    subst he
    exact ⟨b, hp⟩
  · intro h
    rcases h with ⟨v, hv⟩
    exact List.mem_map.mpr ⟨(k, v), hv, rfl⟩

theorem mremove_cons (ka : String) (va : User) (tl : List (String × User))
    (k : String) :
    mremove ((ka, va) :: tl) k =
      if ka = k then mremove tl k else (ka, va) :: mremove tl k := by
  by_cases h : ka = k <;> simp [mremove, List.filter_cons, h]

theorem mfind_minsert_self (m : List (String × User)) (k : String) (v : User) :
    mfind (minsert m k v) k = some v := by
  induction m with
  | nil => simp [minsert, mfind]
  | cons hd tl ih =>
      obtain ⟨k2, v2⟩ := hd
      by_cases h : k2 = k
      · simp [minsert, h, mfind]
      · simp [minsert, h, mfind, ih]

theorem mfind_minsert_ne (m : List (String × User)) (k k2 : String) (v : User)
    (h : k2 ≠ k) : mfind (minsert m k v) k2 = mfind m k2 := by
  have h2 : ¬ (k = k2) := fun hq => h hq.symm
  induction m with
  | nil => simp [minsert, mfind, h2]
  | cons hd tl ih =>
      obtain ⟨ka, va⟩ := hd
      by_cases hk : ka = k
      · subst hk
        simp [minsert, mfind, h2]
      · by_cases hk2 : ka = k2
        · simp [minsert, hk, mfind, hk2, h]
        · simp [minsert, hk, mfind, hk2, ih]

theorem mem_mremove (m : List (String × User)) (k : String) (p : String × User) :
    p ∈ mremove m k ↔ p ∈ m ∧ p.1 ≠ k := by
  simp [mremove, List.mem_filter]

theorem mfind_mremove_self (m : List (String × User)) (k : String) :
    mfind (mremove m k) k = none := by
  induction m with
  | nil => simp [mremove, mfind]
  | cons hd tl ih =>
      obtain ⟨k2, v2⟩ := hd
      rw [mremove_cons]
      by_cases h : k2 = k
      · simpa [h] using ih
      · simpa [mfind, h] using ih

theorem mfind_mremove_ne (m : List (String × User)) (k k2 : String)
    (h : k2 ≠ k) : mfind (mremove m k) k2 = mfind m k2 := by
  have h2 : ¬ (k = k2) := fun hq => h hq.symm
  induction m with
  | nil => simp [mremove, mfind]
  | cons hd tl ih =>
      obtain ⟨ka, va⟩ := hd
      rw [mremove_cons]
      by_cases hk : ka = k
      · simpa [mfind, hk, h2] using ih
      · by_cases hk2 : ka = k2
        · simp [mfind, hk, hk2, h]
        · simpa [mfind, hk, hk2] using ih

theorem mfind_eq_none_iff (m : List (String × User)) (k : String) :
    mfind m k = none ↔ k ∉ mkeys m := by
  induction m with
  | nil => simp [mfind, mkeys]
  | cons hd tl ih =>
      obtain ⟨k2, v2⟩ := hd
      rw [mkeys_cons]
      by_cases h : k2 = k
      · simp [mfind, h]
      · have h2 : ¬ (k = k2) := fun hq => h hq.symm
        simp [mfind, h, h2, ih]

theorem mem_of_mfind (m : List (String × User)) (k : String) (u : User)
    (h : mfind m k = some u) : (k, u) ∈ m := by
  induction m with
  | nil => simp [mfind] at h
  | cons hd tl ih =>
      obtain ⟨k2, v2⟩ := hd
      by_cases hk : k2 = k
      · subst hk
        simp [mfind] at h
        simp [h]
      · simp [mfind, hk] at h
        exact List.mem_cons_of_mem _ (ih h)

theorem mfind_of_mem_nodup (m : List (String × User)) (k : String) (u : User)
    (hnd : (mkeys m).Nodup) (hm : (k, u) ∈ m) : mfind m k = some u := by
  induction m with
  | nil => simp at hm
  | cons hd tl ih =>
      obtain ⟨k2, v2⟩ := hd
      rw [mkeys_cons] at hnd
      have hk2 : k2 ∉ mkeys tl := (List.nodup_cons.mp hnd).1
      have hnd2 : (mkeys tl).Nodup := (List.nodup_cons.mp hnd).2
      rcases List.mem_cons.mp hm with h | h
      · have h1 : k = k2 := congrArg Prod.fst h
        have h2 : u = v2 := congrArg Prod.snd h
        subst h1
        subst h2
        simp [mfind]
      · have hk : k2 ≠ k := by
          intro hq
          subst hq
          exact hk2 ((mem_mkeys tl k2).mpr ⟨u, h⟩)
        simp [mfind, hk]
        exact ih hnd2 h

theorem minsert_eq_append (m : List (String × User)) (k : String) (v : User)
    (h : mfind m k = none) : minsert m k v = m ++ [(k, v)] := by
  induction m with
  | nil => simp [minsert]
  | cons hd tl ih =>
      obtain ⟨k2, v2⟩ := hd
      by_cases hk : k2 = k
      · simp [mfind, hk] at h
      · simp [mfind, hk] at h
        simp [minsert, hk, ih h]

theorem mkeys_nodup_minsert (m : List (String × User)) (k : String) (v : User)
    (hnd : (mkeys m).Nodup) (h : mfind m k = none) :
    (mkeys (minsert m k v)).Nodup := by
  rw [minsert_eq_append m k v h, mkeys_append]
  have hk : k ∉ mkeys m := (mfind_eq_none_iff m k).mp h
  refine List.Nodup.append hnd (by simp [mkeys]) ?_
  intro a ha hb
  have : a = k := by simpa [mkeys] using hb
  exact hk (this ▸ ha)

theorem mkeys_nodup_mremove (m : List (String × User)) (k : String)
    (hnd : (mkeys m).Nodup) : (mkeys (mremove m k)).Nodup := by
  have hsub : List.Sublist (mkeys (mremove m k)) (mkeys m) :=
    List.Sublist.map _ (List.filter_sublist m)
  exact hnd.sublist hsub

theorem mem_minsert (m : List (String × User)) (k : String) (v : User)
    (p : String × User) (hp : p ∈ minsert m k v) : p = (k, v) ∨ p ∈ m := by
  induction m with
  | nil => simpa [minsert] using hp
  | cons hd tl ih =>
      obtain ⟨k2, v2⟩ := hd
      by_cases hk : k2 = k
      · rw [show minsert ((k2, v2) :: tl) k v = (k, v) :: tl by
          simp [minsert, hk]] at hp
        rcases List.mem_cons.mp hp with h | h
        · exact Or.inl h
        · exact Or.inr (List.mem_cons_of_mem _ h)
      · rw [show minsert ((k2, v2) :: tl) k v = (k2, v2) :: minsert tl k v by
          simp [minsert, hk]] at hp
        rcases List.mem_cons.mp hp with h | h
        · exact Or.inr (h ▸ List.mem_cons_self _ _)
        · rcases ih h with h2 | h2
          · exact Or.inl h2
          · exact Or.inr (List.mem_cons_of_mem _ h2)

/-! ### Concrete instances used to witness the hypotheses

`toyScheme` is a stand-in for the external pbkdf2 primitive, used only to
exhibit concrete inputs satisfying the hypotheses of the theorems below (it
is not claimed to be a secure hash).  `demoEntropy` is a concrete entropy
source whose first two salt draws differ and whose first two identifier
draws differ. -/

def toyScheme : HashScheme String where
  hash_password := fun p s => Except.ok (p ++ "#" ++ s)
  parse_hash := fun h => some h
  verify_password := fun p ph => (p ++ "#").data.isPrefixOf ph.data

def demo_salt_at : Nat → String
  | 0 => "sA"
  | _ => "sB"

def demo_uuid_at : Nat → String
  | 0 => "uuid-0"
  | _ => "uuid-1"

def demoEntropy : Entropy :=
  { salt_at := demo_salt_at, uuid_at := demo_uuid_at,
    salt_ctr := 0, uuid_ctr := 0 }

/-- A one-account store used by witnesses: `alice` with the toy hash of
`pw` under salt `sA`, identifier `uuid-0`. -/
def demoUser : User :=
  { user_uuid := "uuid-0", username := "alice", password := "pw#sA" }

def demoStore : UsersImpl :=
  { uuid_to_user := [("uuid-0", demoUser)],
    username_to_user := [("alice", demoUser)] }

/-- A scheme whose hashing primitive always rejects its input, standing in
for a pbkdf2 error (e.g. a rejected salt), used to witness the
hashing-failure path. -/
def failScheme : HashScheme String where
  hash_password := fun _ _ => Except.error "OutputSize"
  parse_hash := fun _ => none
  verify_password := fun _ _ => false

theorem toyScheme_hash_ne (p s h : String)
    (hh : toyScheme.hash_password p s = Except.ok h) : h ≠ p := by
  simp [toyScheme] at hh
  intro he
  have hlen := congrArg String.length (he ▸ hh)
  simp only [String.length_append] at hlen
  have hone : ("#" : String).length = 1 := rfl
  rw [hone] at hlen
  omega

theorem toyScheme_salt_inj (p s1 s2 h1 h2 : String) (hs : s1 ≠ s2)
    (hh1 : toyScheme.hash_password p s1 = Except.ok h1)
    (hh2 : toyScheme.hash_password p s2 = Except.ok h2) : h1 ≠ h2 := by
  simp [toyScheme] at hh1 hh2
  intro he
  apply hs
  have hd := congrArg String.data (hh1.trans (he.trans hh2.symm))
  simp only [String.data_append] at hd
  exact String.ext (List.append_cancel_left hd)

/-! ### Claim theorems -/

/-- C1: for every store state and every (username, password) pair whose
username is not yet registered, a successful `create_user` followed by
`get_user_uuid` with the same credentials returns `some id`, where `id` is
the identifier drawn at creation; under the modelled contract of the
external generators and primitive (`Uuid::new_v4` yields a non-empty string
never issued before, and pbkdf2 verification accepts the hash it produced),
`id` is non-empty and distinct from the identifier of every existing
account. -/
theorem create_then_verify_returns_fresh_id {PHash : Type}
    (H : HashScheme PHash) (st : UsersImpl) (e : Entropy) (u p h : String)
    (ph : PHash)
    (hfresh : mfind st.username_to_user u = none)
    (hhash : H.hash_password p (e.salt_at e.salt_ctr) = Except.ok h)
    (hparse : H.parse_hash h = some ph)
    (hver : H.verify_password p ph = true)
    (hid_ne : e.uuid_at e.uuid_ctr ≠ "")
    (hid_fresh : mfind st.uuid_to_user (e.uuid_at e.uuid_ctr) = none) :
    ∃ st2 e2,
      create_user H st e u p = (Except.ok (), st2, e2) ∧
      get_user_uuid H st2 u p = some (e.uuid_at e.uuid_ctr) ∧
      e.uuid_at e.uuid_ctr ≠ "" ∧
      ∀ q ∈ st.uuid_to_user, q.1 ≠ e.uuid_at e.uuid_ctr := by
  refine ⟨{ uuid_to_user :=
              minsert st.uuid_to_user (e.uuid_at e.uuid_ctr)
                ⟨e.uuid_at e.uuid_ctr, u, h⟩,
            username_to_user :=
              minsert st.username_to_user u ⟨e.uuid_at e.uuid_ctr, u, h⟩ },
          { e with salt_ctr := e.salt_ctr + 1, uuid_ctr := e.uuid_ctr + 1 },
          ?_, ?_, hid_ne, ?_⟩
  · simp [create_user, hfresh, Entropy.draw_salt, hhash, Entropy.draw_uuid]
  · simp [get_user_uuid, mfind_minsert_self, hparse, hver]
  · intro q hq hEq
    have hmem : e.uuid_at e.uuid_ctr ∈ mkeys st.uuid_to_user :=
      (mem_mkeys _ _).mpr ⟨q.2, hEq ▸ Prod.mk.eta.symm ▸ hq⟩
    exact (mfind_eq_none_iff _ _).mp hid_fresh hmem

/-- Witness for C1: on the empty store with the demo entropy and the toy
scheme, creating `alice` and verifying her password yields the first drawn
identifier. -/
theorem create_then_verify_returns_fresh_id_witness :
    ∃ st2 e2,
      create_user toyScheme UsersImpl.default demoEntropy "alice" "pw" =
        (Except.ok (), st2, e2) ∧
      get_user_uuid toyScheme st2 "alice" "pw" = some "uuid-0" ∧
      ("uuid-0" : String) ≠ "" ∧
      ∀ q ∈ UsersImpl.default.uuid_to_user, q.1 ≠ "uuid-0" :=
  create_then_verify_returns_fresh_id toyScheme UsersImpl.default demoEntropy
    "alice" "pw" "pw#sA" "pw#sA"
    (by decide) (by rfl) (by rfl) (by decide) (by decide) (by decide)

/-- C3: `get_user_uuid` returns `some id` exactly when a record with the
given username is live and the supplied password passes the scheme's
verification routine against its stored (parsable) hash; when the username
is absent, when the stored hash fails to parse, or when the password
mismatches, it returns the same plain `none`. -/
theorem get_user_uuid_characterisation {PHash : Type} (H : HashScheme PHash)
    (st : UsersImpl) (u p id : String) :
    (get_user_uuid H st u p = some id ↔
      ∃ user, mfind st.username_to_user u = some user ∧
        id = user.user_uuid ∧
        ∃ ph, H.parse_hash user.password = some ph ∧
          H.verify_password p ph = true) ∧
    (mfind st.username_to_user u = none → get_user_uuid H st u p = none) ∧
    (∀ user, mfind st.username_to_user u = some user →
      H.parse_hash user.password = none → get_user_uuid H st u p = none) ∧
    (∀ user ph, mfind st.username_to_user u = some user →
      H.parse_hash user.password = some ph →
      H.verify_password p ph = false → get_user_uuid H st u p = none) := by
  cases hfind : mfind st.username_to_user u with
  | none =>
      refine ⟨?_, ?_, ?_, ?_⟩ <;> simp [get_user_uuid, hfind]
  | some user =>
      cases hparse : H.parse_hash user.password with
      | none =>
          refine ⟨?_, ?_, ?_, ?_⟩ <;> simp [get_user_uuid, hfind, hparse]
      | some ph =>
          by_cases hver : H.verify_password p ph = true
          · have hg : get_user_uuid H st u p = some user.user_uuid := by
              simp [get_user_uuid, hfind, hparse, hver]
            refine ⟨?_, ?_, ?_, ?_⟩
            · constructor
              · intro hs
                rw [hg] at hs
                exact ⟨user, rfl, (Option.some.inj hs).symm, ph, hparse,
                  hver⟩
              · intro hx
                rcases hx with ⟨user1, h1, h2, ph1, h3, h4⟩
                cases Option.some.inj h1
                rw [hg, h2]
            · intro h0
              cases h0
            · intro user1 h1 h3
              cases Option.some.inj h1
              rw [hparse] at h3
              cases h3
            · intro user1 ph1 h1 h3 h5
              cases Option.some.inj h1
              rw [hparse] at h3
              cases Option.some.inj h3
              rw [hver] at h5
              cases h5
          · have hvf : H.verify_password p ph = false :=
              Bool.eq_false_iff.mpr hver
            have hg : get_user_uuid H st u p = none := by
              simp [get_user_uuid, hfind, hparse, hvf]
            refine ⟨?_, ?_, ?_, ?_⟩
            · constructor
              · intro hs
                rw [hg] at hs
                cases hs
              · intro hx
                rcases hx with ⟨user1, h1, h2, ph1, h3, h4⟩
                cases Option.some.inj h1
                rw [hparse] at h3
                cases Option.some.inj h3
                rw [hvf] at h4
                cases h4
            · intro h0
              cases h0
            · intro user1 h1 h3
              cases Option.some.inj h1
              rw [hparse] at h3
              cases h3
            · intro user1 ph1 h1 h3 h5
              exact hg

/-- Witness for C3: in the one-account demo store, the correct password is
accepted with the account's identifier and a wrong password is rejected
with `none`. -/
theorem get_user_uuid_characterisation_witness :
    get_user_uuid toyScheme demoStore "alice" "pw" = some "uuid-0" ∧
    get_user_uuid toyScheme demoStore "alice" "nope" = none :=
  ⟨(get_user_uuid_characterisation toyScheme demoStore "alice" "pw"
      "uuid-0").1.mpr ⟨demoUser, by decide, by decide, "pw#sA", by decide,
        by decide⟩,
   (get_user_uuid_characterisation toyScheme demoStore "alice" "nope"
      "uuid-0").2.2.2 demoUser "pw#sA" (by decide) (by decide) (by decide)⟩

/-- C4: `create_user` fails with the duplicate-username error whenever the
username is already in the secondary index — leaving both maps and the
whole entropy state untouched (no salt drawn, no identifier consumed) —
and fails with the hashing-failure error whenever the primitive rejects the
input — again leaving the store untouched and consuming no identifier
(only the already-drawn salt counter advances). -/
theorem create_user_failure_is_noop {PHash : Type} (H : HashScheme PHash)
    (st : UsersImpl) (e : Entropy) (u p : String) :
    (∀ user, mfind st.username_to_user u = some user →
      create_user H st e u p =
        (Except.error "Username {name} already exists", st, e)) ∧
    (∀ msg, mfind st.username_to_user u = none →
      H.hash_password p (e.salt_at e.salt_ctr) = Except.error msg →
      create_user H st e u p =
        (Except.error ("Failed to hash password.\n" ++ msg), st,
          { e with salt_ctr := e.salt_ctr + 1 })) := by
  constructor
  · intro user hfind
    simp [create_user, hfind]
  · intro msg hfind hhash
    simp [create_user, hfind, Entropy.draw_salt, hhash]

/-- Witness for C4: creating `alice` again in the demo store fails with the
duplicate error and changes nothing, and a creation under the
always-failing scheme fails with the hashing error, changes no map, and
leaves the identifier counter at its old value. -/
theorem create_user_failure_is_noop_witness :
    create_user toyScheme demoStore demoEntropy "alice" "other" =
      (Except.error "Username {name} already exists", demoStore,
        demoEntropy) ∧
    create_user failScheme demoStore demoEntropy "bob" "pw" =
      (Except.error ("Failed to hash password.\n" ++ "OutputSize"), demoStore,
        { demoEntropy with salt_ctr := demoEntropy.salt_ctr + 1 }) :=
  ⟨(create_user_failure_is_noop toyScheme demoStore demoEntropy "alice"
      "other").1 demoUser (by decide),
   (create_user_failure_is_noop failScheme demoStore demoEntropy "bob"
      "pw").2 "OutputSize" (by decide) (by rfl)⟩

/-- C5 (code behavior at the failing input): `delete_user` with an
identifier that has no live record panics — `.unwrap()` of `None`, modelled
as `none` — instead of returning a recoverable `UnknownIdentifier` error,
for every store state. -/
theorem delete_user_unknown_id_panics (st : UsersImpl) (id : String)
    (h : mfind st.uuid_to_user id = none) : delete_user st id = none := by
  simp [delete_user, h]

/-- Witness for C5: deleting identifier `missing` from the empty store
panics. -/
theorem delete_user_unknown_id_panics_witness :
    delete_user UsersImpl.default "missing" = none :=
  delete_user_unknown_id_panics UsersImpl.default "missing" (by decide)

/-- C8: a completed `verify` call leaves both indexes exactly as they were
before the call (the Rust method only takes `&self`). -/
theorem verify_leaves_state_unchanged {PHash : Type} (H : HashScheme PHash)
    (st st2 : UsersImpl) (e e2 : Entropy) (u p : String) (o : Out)
    (h : stepE H st e (Op.verify u p) = some ((st2, e2), o)) :
    st2.uuid_to_user = st.uuid_to_user ∧
    st2.username_to_user = st.username_to_user := by
  simp [stepE] at h
  obtain ⟨⟨hst, he⟩, ho⟩ := h
  rw [← hst]
  exact ⟨rfl, rfl⟩

/-- Witness for C8: verifying a wrong password against the demo store
leaves it unchanged. -/
theorem verify_leaves_state_unchanged_witness :
    demoStore.uuid_to_user = demoStore.uuid_to_user ∧
    demoStore.username_to_user = demoStore.username_to_user :=
  verify_leaves_state_unchanged toyScheme demoStore demoStore demoEntropy
    demoEntropy "alice" "nope" (Out.verified none) (by rfl)

/-- C9: `create_user` imposes no length or character-set constraint: for
any username and password — the empty string included — a creation with an
unregistered username and a hashing success inserts the record into both
indexes and succeeds; nothing rejects an input for being empty. -/
theorem create_user_accepts_empty_strings {PHash : Type}
    (H : HashScheme PHash) (st : UsersImpl) (e : Entropy) (u p h : String)
    (hfresh : mfind st.username_to_user u = none)
    (hhash : H.hash_password p (e.salt_at e.salt_ctr) = Except.ok h) :
    ∃ st2,
      create_user H st e u p =
        (Except.ok (), st2,
          { e with salt_ctr := e.salt_ctr + 1, uuid_ctr := e.uuid_ctr + 1 }) ∧
      mfind st2.username_to_user u = some ⟨e.uuid_at e.uuid_ctr, u, h⟩ ∧
      mfind st2.uuid_to_user (e.uuid_at e.uuid_ctr) =
        some ⟨e.uuid_at e.uuid_ctr, u, h⟩ := by
  refine ⟨{ uuid_to_user :=
              minsert st.uuid_to_user (e.uuid_at e.uuid_ctr)
                ⟨e.uuid_at e.uuid_ctr, u, h⟩,
            username_to_user :=
              minsert st.username_to_user u ⟨e.uuid_at e.uuid_ctr, u, h⟩ },
          ?_, ?_, ?_⟩
  · simp [create_user, hfresh, Entropy.draw_salt, hhash, Entropy.draw_uuid]
  · exact mfind_minsert_self _ _ _
  · exact mfind_minsert_self _ _ _

/-- Witness for C9: creating the empty username with the empty password on
the empty store succeeds and registers the record in both indexes. -/
theorem create_user_accepts_empty_strings_witness :
    ∃ st2,
      create_user toyScheme UsersImpl.default demoEntropy "" "" =
        (Except.ok (), st2,
          { demoEntropy with salt_ctr := demoEntropy.salt_ctr + 1, uuid_ctr := demoEntropy.uuid_ctr + 1 }) ∧
      mfind st2.username_to_user "" = some ⟨"uuid-0", "", "#sA"⟩ ∧
      mfind st2.uuid_to_user "uuid-0" = some ⟨"uuid-0", "", "#sA"⟩ :=
  create_user_accepts_empty_strings toyScheme UsersImpl.default demoEntropy
    "" "" "#sA" (by decide) (by rfl)

/-- Inserting a record with a fresh username and a fresh identifier into
both indexes preserves the dual-index invariant. -/
theorem Inv_insert (st : UsersImpl) (u h uuid : String)
    (hinv : Inv st)
    (hfresh : mfind st.username_to_user u = none)
    (hid_fresh : mfind st.uuid_to_user uuid = none) :
    Inv { uuid_to_user := minsert st.uuid_to_user uuid ⟨uuid, u, h⟩,
          username_to_user := minsert st.username_to_user u ⟨uuid, u, h⟩ } := by
  obtain ⟨hnd1, hnd2, hfwd, hbwd⟩ := hinv
  refine ⟨mkeys_nodup_minsert _ _ _ hnd1 hid_fresh,
          mkeys_nodup_minsert _ _ _ hnd2 hfresh, ?_, ?_⟩
  · intro q hq
    rcases mem_minsert _ _ _ _ hq with hq1 | hq2
    · subst hq1
      exact ⟨rfl, mfind_minsert_self _ _ _⟩
    · obtain ⟨hk, hlook⟩ := hfwd q hq2
      refine ⟨hk, ?_⟩
      have hne : q.2.username ≠ u := by
        intro hq3
        rw [hq3, hfresh] at hlook
        cases hlook
      rw [mfind_minsert_ne _ _ _ _ hne]
      exact hlook
  · intro q hq
    rcases mem_minsert _ _ _ _ hq with hq1 | hq2
    · subst hq1
      exact ⟨rfl, mfind_minsert_self _ _ _⟩
    · obtain ⟨hk, hlook⟩ := hbwd q hq2
      refine ⟨hk, ?_⟩
      have hne : q.2.user_uuid ≠ uuid := by
        intro hq3
        rw [hq3, hid_fresh] at hlook
        cases hlook
      rw [mfind_minsert_ne _ _ _ _ hne]
      exact hlook

/-- Removing a live record from both indexes (by its identifier on the
primary and by its username on the secondary) preserves the dual-index
invariant. -/
theorem Inv_remove (st : UsersImpl) (id : String) (u : User)
    (hinv : Inv st) (hfound : mfind st.uuid_to_user id = some u) :
    Inv { uuid_to_user := mremove st.uuid_to_user id,
          username_to_user := mremove st.username_to_user u.username } := by
  obtain ⟨hnd1, hnd2, hfwd, hbwd⟩ := hinv
  obtain ⟨hid_eq, hulook⟩ := hfwd (id, u) (mem_of_mfind _ _ _ hfound)
  refine ⟨mkeys_nodup_mremove _ _ hnd1, mkeys_nodup_mremove _ _ hnd2, ?_, ?_⟩
  · intro q hq
    obtain ⟨hq_mem, hq_ne⟩ := (mem_mremove _ _ _).mp hq
    obtain ⟨hk, hlook⟩ := hfwd q hq_mem
    refine ⟨hk, ?_⟩
    have hne : q.2.username ≠ u.username := by
      intro hq3
      have hq2u : q.2 = u := by
        have hx := hlook
        rw [hq3, hulook] at hx
        exact (Option.some.inj hx).symm
      apply hq_ne
      rw [hk, hq2u, ← hid_eq]
    rw [mfind_mremove_ne _ _ _ hne]
    exact hlook
  · intro q hq
    obtain ⟨hq_mem, hq_ne⟩ := (mem_mremove _ _ _).mp hq
    obtain ⟨hk, hlook⟩ := hbwd q hq_mem
    refine ⟨hk, ?_⟩
    have hne : q.2.user_uuid ≠ id := by
      intro hq3
      have hq2u : q.2 = u := by
        have hx := hlook
        rw [hq3, hfound] at hx
        exact (Option.some.inj hx).symm
      apply hq_ne
      rw [hk, hq2u]
    rw [mfind_mremove_ne _ _ _ hne]
    exact hlook

/-- C2: every completed trait call (a create that returned, a verify, or a
delete that did not panic) maps a store satisfying the dual-index invariant
to a store still satisfying it, it being assumed — as the external uuid
generator guarantees — that the identifier a create would draw is not
already a key of the primary index. -/
theorem completed_op_preserves_inv {PHash : Type} (H : HashScheme PHash)
    (st st2 : UsersImpl) (e e2 : Entropy) (op : Op) (o : Out)
    (hinv : Inv st)
    (hid_fresh : mfind st.uuid_to_user (e.uuid_at e.uuid_ctr) = none)
    (hstep : stepE H st e op = some ((st2, e2), o)) :
    Inv st2 := by
  cases op with
  | verify u p =>
      have heq : stepE H st e (Op.verify u p) =
          some ((st, e), Out.verified (get_user_uuid H st u p)) := by
        simp [stepE]
      rw [heq] at hstep
      have h2 := Option.some.inj hstep
      have hst : st = st2 := congrArg (fun x => x.1.1) h2
      rw [← hst]
      exact hinv
  | create u p =>
      cases hfind : mfind st.username_to_user u with
      | some user =>
          have heq : stepE H st e (Op.create u p) =
              some ((st, e),
                Out.createFailed "Username {name} already exists") := by
            simp [stepE, create_user, hfind]
          rw [heq] at hstep
          have h2 := Option.some.inj hstep
          have hst : st = st2 := congrArg (fun x => x.1.1) h2
          rw [← hst]
          exact hinv
      | none =>
          cases hhash : H.hash_password p (e.salt_at e.salt_ctr) with
          | error msg =>
              have heq : stepE H st e (Op.create u p) =
                  some ((st, { e with salt_ctr := e.salt_ctr + 1 }),
                    Out.createFailed ("Failed to hash password.\n" ++ msg)) := by
                simp [stepE, create_user, hfind, Entropy.draw_salt, hhash]
              rw [heq] at hstep
              have h2 := Option.some.inj hstep
              have hst : st = st2 := congrArg (fun x => x.1.1) h2
              rw [← hst]
              exact hinv
          | ok h =>
              have heq : stepE H st e (Op.create u p) =
                  some (({ uuid_to_user := minsert st.uuid_to_user (e.uuid_at e.uuid_ctr) ⟨e.uuid_at e.uuid_ctr, u, h⟩, username_to_user := minsert st.username_to_user u ⟨e.uuid_at e.uuid_ctr, u, h⟩ },
                         { e with salt_ctr := e.salt_ctr + 1, uuid_ctr := e.uuid_ctr + 1 }),
                        Out.created) := by
                simp [stepE, create_user, hfind, Entropy.draw_salt, hhash,
                  Entropy.draw_uuid]
              rw [heq] at hstep
              have h2 := Option.some.inj hstep
              have hst : _ = st2 := congrArg (fun x => x.1.1) h2
              rw [← hst]
              exact Inv_insert st u h (e.uuid_at e.uuid_ctr) hinv hfind
                hid_fresh
  | delete id =>
      cases hfind : mfind st.uuid_to_user id with
      | none =>
          have heq : stepE H st e (Op.delete id) = none := by
            simp [stepE, delete_user, hfind]
          rw [heq] at hstep
          cases hstep
      | some uu =>
          have hulook : mfind st.username_to_user uu.username = some uu :=
            (hinv.2.2.1 (id, uu) (mem_of_mfind _ _ _ hfind)).2
          have heq : stepE H st e (Op.delete id) =
              some (({ uuid_to_user := mremove st.uuid_to_user id,
                       username_to_user :=
                         mremove st.username_to_user uu.username }, e),
                    Out.deleted) := by
            simp [stepE, delete_user, hfind, hulook]
          rw [heq] at hstep
          have h2 := Option.some.inj hstep
          have hst : _ = st2 := congrArg (fun x => x.1.1) h2
          rw [← hst]
          exact Inv_remove st id uu hinv hfind

/-- Witness for C2: a completed create of `alice` on the empty store yields
the demo store, which satisfies the invariant. -/
theorem completed_op_preserves_inv_witness : Inv demoStore :=
  completed_op_preserves_inv toyScheme UsersImpl.default demoStore
    demoEntropy
    { salt_at := demo_salt_at, uuid_at := demo_uuid_at,
      salt_ctr := 1, uuid_ctr := 1 }
    (Op.create "alice" "pw") Out.created (by decide) (by decide) (by rfl)

/-- C6: creating a fresh account and then deleting it by the identifier
assigned at creation makes a subsequent verify of those credentials return
`none`, and afterwards neither index holds an entry for the account. -/
theorem create_delete_then_verify_none {PHash : Type} (H : HashScheme PHash)
    (st : UsersImpl) (e : Entropy) (u p h : String)
    (hfresh : mfind st.username_to_user u = none)
    (hhash : H.hash_password p (e.salt_at e.salt_ctr) = Except.ok h) :
    ∃ st2 e2 st3,
      create_user H st e u p = (Except.ok (), st2, e2) ∧
      delete_user st2 (e.uuid_at e.uuid_ctr) = some st3 ∧
      get_user_uuid H st3 u p = none ∧
      mfind st3.uuid_to_user (e.uuid_at e.uuid_ctr) = none ∧
      mfind st3.username_to_user u = none := by
  refine ⟨{ uuid_to_user :=
              minsert st.uuid_to_user (e.uuid_at e.uuid_ctr)
                ⟨e.uuid_at e.uuid_ctr, u, h⟩,
            username_to_user :=
              minsert st.username_to_user u ⟨e.uuid_at e.uuid_ctr, u, h⟩ },
          { e with salt_ctr := e.salt_ctr + 1, uuid_ctr := e.uuid_ctr + 1 },
          { uuid_to_user :=
              mremove (minsert st.uuid_to_user (e.uuid_at e.uuid_ctr)
                ⟨e.uuid_at e.uuid_ctr, u, h⟩) (e.uuid_at e.uuid_ctr),
            username_to_user :=
              mremove (minsert st.username_to_user u
                ⟨e.uuid_at e.uuid_ctr, u, h⟩) u },
          ?_, ?_, ?_, ?_, ?_⟩
  · simp [create_user, hfresh, Entropy.draw_salt, hhash, Entropy.draw_uuid]
  · simp [delete_user, mfind_minsert_self]
  · simp [get_user_uuid, mfind_mremove_self]
  · exact mfind_mremove_self _ _
  · exact mfind_mremove_self _ _

/-- Witness for C6: create `alice`, delete `uuid-0`, verify `alice` —
`none`, and both indexes are empty of the account. -/
theorem create_delete_then_verify_none_witness :
    ∃ st2 e2 st3,
      create_user toyScheme UsersImpl.default demoEntropy "alice" "pw" =
        (Except.ok (), st2, e2) ∧
      delete_user st2 "uuid-0" = some st3 ∧
      get_user_uuid toyScheme st3 "alice" "pw" = none ∧
      mfind st3.uuid_to_user "uuid-0" = none ∧
      mfind st3.username_to_user "alice" = none :=
  create_delete_then_verify_none toyScheme UsersImpl.default demoEntropy
    "alice" "pw" "pw#sA" (by decide) (by rfl)

/-- C10: deleting a live identifier from a store satisfying the invariant
removes exactly that record from the primary index and exactly its username
entry from the secondary index; every other key of either index looks up
unchanged. -/
theorem delete_user_removes_exactly_one (st : UsersImpl) (id : String)
    (u : User) (hinv : Inv st)
    (hfound : mfind st.uuid_to_user id = some u) :
    ∃ st2, delete_user st id = some st2 ∧
      mfind st2.uuid_to_user id = none ∧
      mfind st2.username_to_user u.username = none ∧
      (∀ k, k ≠ id → mfind st2.uuid_to_user k = mfind st.uuid_to_user k) ∧
      (∀ k, k ≠ u.username →
        mfind st2.username_to_user k = mfind st.username_to_user k) := by
  have hulook : mfind st.username_to_user u.username = some u :=
    (hinv.2.2.1 (id, u) (mem_of_mfind _ _ _ hfound)).2
  refine ⟨{ uuid_to_user := mremove st.uuid_to_user id,
            username_to_user := mremove st.username_to_user u.username },
          ?_, ?_, ?_, ?_, ?_⟩
  · simp [delete_user, hfound, hulook]
  · exact mfind_mremove_self _ _
  · exact mfind_mremove_self _ _
  · intro k hk
    exact mfind_mremove_ne _ _ _ hk
  · intro k hk
    exact mfind_mremove_ne _ _ _ hk

/-- Witness for C10: deleting `uuid-0` from the demo store empties both
indexes of `alice` and every other key is untouched. -/
theorem delete_user_removes_exactly_one_witness :
    ∃ st2, delete_user demoStore "uuid-0" = some st2 ∧
      mfind st2.uuid_to_user "uuid-0" = none ∧
      mfind st2.username_to_user demoUser.username = none ∧
      (∀ k, k ≠ "uuid-0" →
        mfind st2.uuid_to_user k = mfind demoStore.uuid_to_user k) ∧
      (∀ k, k ≠ demoUser.username →
        mfind st2.username_to_user k = mfind demoStore.username_to_user k) :=
  delete_user_removes_exactly_one demoStore "uuid-0" demoUser (by decide)
    (by decide)

/-- C7: each successful creation stores only the primitive's hash output —
computed from the fresh salt drawn for that creation — in the record's
password field; under the modelled pbkdf2 contract (the PHC output string
never equals the plaintext, and hashes under different salts differ) and
distinct consecutive salt draws, the stored field never equals the
plaintext password, and two accounts created with the identical password
carry different stored hashes. -/
theorem password_hash_salted_not_plaintext {PHash : Type}
    (H : HashScheme PHash) (st : UsersImpl) (e : Entropy)
    (u1 u2 p h1 h2 : String)
    (Hne : ∀ pw s hh, H.hash_password pw s = Except.ok hh → hh ≠ pw)
    (Hsalt : ∀ pw s1 s2 hh1 hh2, s1 ≠ s2 →
      H.hash_password pw s1 = Except.ok hh1 →
      H.hash_password pw s2 = Except.ok hh2 → hh1 ≠ hh2)
    (hsne : e.salt_at e.salt_ctr ≠ e.salt_at (e.salt_ctr + 1))
    (hf1 : mfind st.username_to_user u1 = none)
    (hh1 : H.hash_password p (e.salt_at e.salt_ctr) = Except.ok h1)
    (hne12 : u2 ≠ u1)
    (hf2 : mfind st.username_to_user u2 = none)
    (hh2 : H.hash_password p (e.salt_at (e.salt_ctr + 1)) = Except.ok h2) :
    ∃ st2 e2 st3 e3 r1 r2,
      create_user H st e u1 p = (Except.ok (), st2, e2) ∧
      create_user H st2 e2 u2 p = (Except.ok (), st3, e3) ∧
      mfind st3.username_to_user u1 = some r1 ∧
      mfind st3.username_to_user u2 = some r2 ∧
      r1.password = h1 ∧ r2.password = h2 ∧
      r1.password ≠ p ∧ r2.password ≠ p ∧
      r1.password ≠ r2.password := by
  have hne21 : u1 ≠ u2 := fun hq => hne12 hq.symm
  have hfst2 :
      mfind (minsert st.username_to_user u1 ⟨e.uuid_at e.uuid_ctr, u1, h1⟩)
        u2 = none := by
    rw [mfind_minsert_ne _ _ _ _ hne12]
    exact hf2
  refine ⟨{ uuid_to_user := minsert st.uuid_to_user (e.uuid_at e.uuid_ctr) ⟨e.uuid_at e.uuid_ctr, u1, h1⟩, username_to_user := minsert st.username_to_user u1 ⟨e.uuid_at e.uuid_ctr, u1, h1⟩ },
          { e with salt_ctr := e.salt_ctr + 1, uuid_ctr := e.uuid_ctr + 1 },
          { uuid_to_user := minsert (minsert st.uuid_to_user (e.uuid_at e.uuid_ctr) ⟨e.uuid_at e.uuid_ctr, u1, h1⟩) (e.uuid_at (e.uuid_ctr + 1)) ⟨e.uuid_at (e.uuid_ctr + 1), u2, h2⟩, username_to_user := minsert (minsert st.username_to_user u1 ⟨e.uuid_at e.uuid_ctr, u1, h1⟩) u2 ⟨e.uuid_at (e.uuid_ctr + 1), u2, h2⟩ },
          { e with salt_ctr := e.salt_ctr + 1 + 1, uuid_ctr := e.uuid_ctr + 1 + 1 },
          ⟨e.uuid_at e.uuid_ctr, u1, h1⟩, ⟨e.uuid_at (e.uuid_ctr + 1), u2, h2⟩,
          ?_, ?_, ?_, ?_, rfl, rfl, Hne p _ h1 hh1, Hne p _ h2 hh2,
          Hsalt p _ _ h1 h2 hsne hh1 hh2⟩
  · simp [create_user, hf1, Entropy.draw_salt, hh1, Entropy.draw_uuid]
  · simp [create_user, hfst2, Entropy.draw_salt, hh2, Entropy.draw_uuid]
  · rw [mfind_minsert_ne _ _ _ _ hne21]
    exact mfind_minsert_self _ _ _
  · exact mfind_minsert_self _ _ _

/-- Witness for C7: `alice` and `bob` both register with password `pw`
under the toy scheme; the stored hashes use the two distinct demo salts,
differ from each other, and differ from the plaintext. -/
theorem password_hash_salted_not_plaintext_witness :
    ∃ st2 e2 st3 e3 r1 r2,
      create_user toyScheme UsersImpl.default demoEntropy "alice" "pw" =
        (Except.ok (), st2, e2) ∧
      create_user toyScheme st2 e2 "bob" "pw" = (Except.ok (), st3, e3) ∧
      mfind st3.username_to_user "alice" = some r1 ∧
      mfind st3.username_to_user "bob" = some r2 ∧
      r1.password = "pw#sA" ∧ r2.password = "pw#sB" ∧
      r1.password ≠ "pw" ∧ r2.password ≠ "pw" ∧
      r1.password ≠ r2.password :=
  password_hash_salted_not_plaintext toyScheme UsersImpl.default demoEntropy
    "alice" "bob" "pw" "pw#sA" "pw#sB"
    toyScheme_hash_ne toyScheme_salt_inj
    (by decide) (by decide) (by rfl) (by decide) (by decide) (by rfl)

end AuthService
